import Mathlib

/-!
Verification of the trust and request-authentication subsystem of the
llm-gateway repository: the auth manager (credential issuance, signature
verification, usage-callback allowlist), the canonical signing string, the
authentication interceptor, the gRPC handlers for the usage-callback
operations, and the HTTP transport bridge.

Go machine integers are modelled as `Int` with explicit wrapping where the
source can overflow (`w64`); byte slices as `List Nat` (each element a byte
value); Go `time.Time` as an `Int` count of nanoseconds since the Unix epoch
(`time.Unix(sec, 0)` is `sec * nsPerSec`); Go maps as association lists with
replace-on-insert semantics.  Cryptographic primitives from the Go standard
library (HMAC-SHA256, SHA-256) are abstracted as explicit function
parameters; the hex codec (`encoding/hex`), decimal formatting (`fmt` `%d`),
and the scheme/host part of `net/url.Parse` are modelled concretely.
-/

namespace LLMGateway

/-! ### Byte-wise lexicographic string order (Go string `<`, `sort.Strings`) -/

/-- Lexicographic comparison of char lists by code point.  UTF-8 byte order
coincides with code-point order, so this models Go's byte-wise string order
used by `sort.Strings`. -/
def charListLe : List Char → List Char → Bool
  | [], _ => true
  | _ :: _, [] => false
  | a :: as, b :: bs =>
    if a.toNat < b.toNat then true
    else if b.toNat < a.toNat then false
    else charListLe as bs

/-- String order used by `sort.Strings`. -/
def strLe (a b : String) : Prop := charListLe a.data b.data = true

instance : DecidableRel strLe := fun a b => by unfold strLe; infer_instance

/-- Model of Go `sort.Strings`. -/
def sortStrings (l : List String) : List String := List.insertionSort strLe l

/-! ### String helpers -/

/-- Model of Go `strings.HasSuffix`. -/
def hasSuffixStr (s suf : String) : Bool := List.isSuffixOf suf.data s.data

/-- ASCII lower-casing of one char (Go MIME/metadata key canonicalization is
case-insensitive; we normalize keys by lower-casing). -/
def lowerChar (c : Char) : Char :=
  if 65 ≤ c.toNat ∧ c.toNat ≤ 90 then Char.ofNat (c.toNat + 32) else c

/-- ASCII lower-casing of a string. -/
def lowerStr (s : String) : String := String.mk (s.data.map lowerChar)

/-! ### Decimal formatting (Go `fmt` `%d` on an `int64`) -/

/-- Decimal digits of `n`, most significant first; the first argument is
recursion fuel (`n` itself suffices since `n` has at most `n` digits). -/
def natDecAux : Nat → Nat → List Char
  | 0, _ => []
  | fuel + 1, n => if n = 0 then [] else natDecAux fuel (n / 10) ++ [Char.ofNat (48 + n % 10)]

/-- Decimal representation of a natural number. -/
def natDec (n : Nat) : String := if n = 0 then "0" else String.mk (natDecAux n n)

/-- Decimal representation of an integer, as produced by Go `%d`. -/
def intDec (i : Int) : String := if i < 0 then "-" ++ natDec i.natAbs else natDec i.natAbs

/-- Predicate: `s` contains no newline character. -/
def noNL (s : String) : Prop := '\n' ∉ s.data

instance (s : String) : Decidable (noNL s) := by
  unfold noNL; infer_instance

/-- Number of newline characters in `s`. -/
def nlCount (s : String) : Nat := List.count '\n' s.data

/-! ### Hex codec (Go `encoding/hex`) -/

/-- The character `hextable[d]` for a half-byte `d < 16` (Go `encoding/hex`
indexes `"0123456789abcdef"`; values `d ≥ 16` cannot arise from a byte and
are mapped to a non-hex placeholder). -/
def hexDigitChar (d : Nat) : Char :=
  if d < 10 then Char.ofNat (48 + d)
  else if d < 16 then Char.ofNat (87 + d)
  else ' '

/-- Model of Go `encoding/hex` `fromHexChar`: accepts `0-9`, `a-f`, `A-F`. -/
def fromHexChar (c : Char) : Option Nat :=
  if 48 ≤ c.toNat ∧ c.toNat ≤ 57 then some (c.toNat - 48)
  else if 97 ≤ c.toNat ∧ c.toNat ≤ 102 then some (c.toNat - 87)
  else if 65 ≤ c.toNat ∧ c.toNat ≤ 70 then some (c.toNat - 55)
  else none

/-- Hex encoding of a byte list (model of `hex.EncodeToString`). -/
def hexEncodeL : List Nat → List Char
  | [] => []
  | b :: r => hexDigitChar (b / 16) :: hexDigitChar (b % 16) :: hexEncodeL r

def hexEncode (bs : List Nat) : String := String.mk (hexEncodeL bs)

/-- Hex decoding (model of `hex.DecodeString`): fails on odd length or any
non-hex character. -/
def hexDecodeL : List Char → Option (List Nat)
  | [] => some []
  | [_] => none
  | c1 :: c2 :: r =>
    match fromHexChar c1, fromHexChar c2, hexDecodeL r with
    | some hi, some lo, some rest => some ((hi * 16 + lo) :: rest)
    | _, _, _ => none

def hexDecode (s : String) : Option (List Nat) := hexDecodeL s.data

/-! ### Association lists (Go maps, keyed by strings) -/

/-- Lookup in an association list (Go map read `m[k]`). -/
def alLookup {α : Type} (k : String) : List (String × α) → Option α
  | [] => none
  | (k', v) :: r => if k' = k then some v else alLookup k r

/-- Insert-or-replace (Go map write `m[k] = v`). -/
def alSet {α : Type} (k : String) (v : α) : List (String × α) → List (String × α)
  | [] => [(k, v)]
  | (k', v') :: r => if k' = k then (k, v) :: r else (k', v') :: alSet k v r

/-- Key removal (Go `delete(m, k)`). -/
def alErase {α : Type} (k : String) : List (String × α) → List (String × α)
  | [] => []
  | (k', v') :: r => if k' = k then alErase k r else (k', v') :: alErase k r

/-! ### URL parsing: model of Go `net/url.Parse` restricted to the `Scheme`
and `Host` fields, the only ones `validateCallbackURL` consults -/

structure URL where
  Scheme : String
  Host : String
deriving DecidableEq

/-- Prefix of `l` before the first occurrence of `c` (`l` itself if absent). -/
def takeUntil (c : Char) : List Char → List Char
  | [] => []
  | x :: r => if x = c then [] else x :: takeUntil c r

def isAlphaChar (c : Char) : Bool :=
  (97 ≤ c.toNat && c.toNat ≤ 122) || (65 ≤ c.toNat && c.toNat ≤ 90)

def isDigitChar (c : Char) : Bool := 48 ≤ c.toNat && c.toNat ≤ 57

def isHexDigitChar (c : Char) : Bool :=
  isDigitChar c || (97 ≤ c.toNat && c.toNat ≤ 102) || (65 ≤ c.toNat && c.toNat ≤ 70)

/-- Scan loop of Go `net/url` `getScheme`: `none` models the
"missing protocol scheme" error (a `:` at position 0), otherwise the scheme
(possibly empty when the URL has none) and the remainder are returned. -/
def getSchemeLoop (full : List Char) : Nat → List Char → Option (List Char × List Char)
  | _, [] => some ([], full)
  | i, c :: rest =>
    if isAlphaChar c then getSchemeLoop full (i + 1) rest
    else if isDigitChar c || c == '+' || c == '-' || c == '.' then
      if i = 0 then some ([], full) else getSchemeLoop full (i + 1) rest
    else if c = ':' then
      if i = 0 then none else some (full.take i, full.drop (i + 1))
    else some ([], full)

def getSchemeGo (full : List Char) : Option (List Char × List Char) := getSchemeLoop full 0 full

/-- Model of Go `net/url` `validOptionalPort`. -/
def validOptionalPort : List Char → Bool
  | [] => true
  | c :: rest => c == ':' && rest.all isDigitChar

/-- Characters Go's `shouldEscape(_, encodeHost)` leaves unescaped (plus all
non-ASCII bytes, which `unescape` does not police). -/
def hostCharOK (c : Char) : Bool :=
  128 ≤ c.toNat || isAlphaChar c || isDigitChar c ||
    ['-', '_', '.', '~', '!', '$', '&', Char.ofNat 39, '(', ')', '*', '+', ',', ';', '=',
      ':', '[', ']', '<', '>', '"'].contains c

def unhexVal (c : Char) : Nat :=
  if isDigitChar c then c.toNat - 48
  else if 97 ≤ c.toNat && c.toNat ≤ 102 then c.toNat - 87
  else c.toNat - 55

/-- Percent-escape validation performed by Go `unescape(_, encodeHost)`:
every `%` must start a valid two-digit escape, and escapes of ASCII bytes
(`unhex(first digit) < 8`) other than `%25` are rejected in hosts. -/
def hostEscapesOK : List Char → Bool
  | [] => true
  | '%' :: h1 :: h2 :: rest =>
    isHexDigitChar h1 && isHexDigitChar h2 &&
      (decide (8 ≤ unhexVal h1) || (h1 == '2' && h2 == '5')) && hostEscapesOK rest
  | '%' :: _ => false
  | _ :: rest => hostEscapesOK rest

/-- Index of the last occurrence of `c` in `l`. -/
def lastIndexOfChar (c : Char) (l : List Char) : Option Nat :=
  match l.reverse.findIdx? (fun x => x == c) with
  | none => none
  | some j => some (l.length - 1 - j)

/-- Model of Go `net/url` `parseHost`: bracket/port validation,
percent-escape validation and the host character-set check (IPv6 zone
handling simplified to the bracket and port checks). -/
def parseHostGo (l : List Char) : Option String :=
  let portOK :=
    match l with
    | '[' :: _ =>
      match lastIndexOfChar ']' l with
      | none => false
      | some j => validOptionalPort (l.drop (j + 1))
    | _ =>
      match lastIndexOfChar ':' l with
      | none => true
      | some i => validOptionalPort (l.drop i)
  if portOK && hostEscapesOK l && l.all (fun c => c == '%' || hostCharOK c) then
    some (String.mk l)
  else none

def listHeadIs (c : Char) : List Char → Bool
  | [] => false
  | x :: _ => x == c

/-- Suffix after the last `@` (the host part of `userinfo@host` in an
authority; Go validates the userinfo characters, which we simplify away). -/
def afterLastAt (l : List Char) : List Char := (takeUntil '@' l.reverse).reverse

/-- Model of Go `net/url.Parse` (`viaRequest = false`) restricted to the
scheme and host: control-byte check, fragment and query splitting, scheme
extraction via `getScheme`, the opaque and rootless-path cases, and
authority/host parsing.  Fragment, path and userinfo unescaping/validation
are simplified away (none of the URLs below exercises them). -/
def urlParse (raw : String) : Option URL :=
  let u := takeUntil '#' raw.data
  if u.any (fun c => c.toNat < 32 || c.toNat == 127) then none
  else if u = ['*'] then some ⟨"", ""⟩
  else
    match getSchemeGo u with
    | none => none
    | some (schemeRaw, rest0) =>
      let scheme := schemeRaw.map lowerChar
      let rest := takeUntil '?' rest0
      if scheme ≠ [] ∧ listHeadIs '/' rest = false then some ⟨String.mk scheme, ""⟩
      else if scheme = [] ∧ listHeadIs '/' rest = false ∧
          (takeUntil '/' rest).contains ':' = true then none
      else if (scheme ≠ [] ∨ List.isPrefixOf ['/', '/', '/'] rest = false) ∧
          List.isPrefixOf ['/', '/'] rest = true then
        match parseHostGo (afterLastAt (takeUntil '/' (rest.drop 2))) with
        | none => none
        | some host => some ⟨String.mk scheme, host⟩
      else some ⟨String.mk scheme, ""⟩

/-! ### Auth manager: src/internal/infrastructure/auth/manager.go -/

/-- The sentinel errors of the auth package (`ErrUnauthenticated`,
`ErrForbidden`); `forbidden msg` models `fmt.Errorf("%w: msg", ErrForbidden)`. -/
inductive AuthErr where
  | unauthenticated
  | forbidden (msg : String)
deriving DecidableEq

/-- The `err.Error()` string of the modelled error values. -/
def AuthErr.errString : AuthErr → String
  | .unauthenticated => "unauthenticated"
  | .forbidden msg => "forbidden: " ++ msg

structure ServiceToken where
  Name : String
  Token : String
deriving DecidableEq

structure TemporaryCredentials where
  AccessKeyID : String
  AccessKeySecret : String
  ExpiresAt : Int
  Subject : String
deriving DecidableEq

structure tempRecord where
  secret : String
  expiresAt : Int
  subject : String
deriving DecidableEq

/-- Model of `auth.Manager`.  Go maps become association lists; `time.Duration` and
`time.Time` become `Int` nanosecond counts.  The mutex only serializes
access and has no sequential semantics. -/
structure Manager where
  enabled : Bool
  serviceTokens : List (String × ServiceToken)
  tempTTL : Int
  temps : List (String × tempRecord)
  usageCallbackAllowlist : List (String × List String)
deriving DecidableEq

def nsPerSec : Int := 1000000000

def minuteNs : Int := 60 * nsPerSec

/-- Model of `time.Unix(sec, 0)` as nanoseconds. -/
def timeUnix (sec : Int) : Int := sec * nsPerSec

def NewManager (serviceTokens : List ServiceToken) (tempTTL : Int) : Manager :=
  let st := serviceTokens.foldl (fun acc t => if t.Token = "" then acc else alSet t.Token t acc) []
  { enabled := !st.isEmpty
    serviceTokens := st
    tempTTL := if tempTTL ≤ 0 then 15 * minuteNs else tempTTL
    temps := []
    usageCallbackAllowlist := [] }

def AuthenticateServiceToken (m : Manager) (token : String) : String × Bool :=
  if m.enabled = false then ("", true)
  else if token = "" then ("", false)
  else
    match alLookup token m.serviceTokens with
    | none => ("", false)
    | some t => if t.Name ≠ "" then (t.Name, true) else ("service", true)

/-- Model of `Manager.IssueTemporaryCredentials`.  The random access-key id and
secret (`randHex(16)`, `randB64(32)`) are passed in as `akid` and `secret`,
and the wall clock `time.Now()` as `now`; the updated manager state is
returned alongside the credentials. -/
def IssueTemporaryCredentials (m : Manager) (serviceToken akid secret : String) (now : Int) :
    Except AuthErr (TemporaryCredentials × Manager) :=
  if m.enabled = false then .error (.forbidden "auth not configured")
  else
    match AuthenticateServiceToken m serviceToken with
    | (_, false) => .error .unauthenticated
    | (subject, true) =>
      .ok ({ AccessKeyID := akid, AccessKeySecret := secret, ExpiresAt := now + m.tempTTL,
             Subject := subject },
        { m with temps := (alSet akid
            { secret := secret, expiresAt := now + m.tempTTL, subject := subject } m.temps) })

structure SignatureInput where
  AccessKeyID : String := ""
  Signature : String := ""
  Timestamp : Int := 0
  Nonce : String := ""
  CallbackURL : String := ""
  HTTPMethod : String := ""
  HTTPPath : String := ""
  HTTPQuery : String := ""
  BodySHA256 : String := ""
  GRPCFullMethod : String := ""
deriving DecidableEq

/-- Model of `canonicalString` from manager.go: HTTP branch when both `HTTPMethod`
and `HTTPPath` are non-empty, gRPC fallback otherwise; `%d` is `intDec`. -/
def canonicalString (in_ : SignatureInput) : String :=
  if in_.HTTPMethod ≠ "" ∧ in_.HTTPPath ≠ "" then
    intDec in_.Timestamp ++ "\n" ++ in_.Nonce ++ "\n" ++ in_.HTTPMethod ++ "\n" ++
      (if in_.HTTPQuery ≠ "" then in_.HTTPPath ++ "?" ++ in_.HTTPQuery else in_.HTTPPath) ++
      "\n" ++ in_.BodySHA256 ++ "\n" ++ in_.CallbackURL
  else
    intDec in_.Timestamp ++ "\n" ++ in_.Nonce ++ "\n" ++ "GRPC" ++ "\n" ++
      in_.GRPCFullMethod ++ "\n" ++ in_.CallbackURL

/-- Model of `hmacSHA256Hex`, with the HMAC-SHA256 primitive of the Go standard
library abstracted as the byte-list-valued parameter `hm`. -/
def hmacSHA256Hex (hm : String → String → List Nat) (secret msg : String) : String :=
  hexEncode (hm secret msg)

/-- Model of `Manager.AuthenticateSignature`: required-field check, ±5-minute clock
skew window, record lookup with lazy expiry, and constant-time comparison of
the hex-decoded signatures (`hmac.Equal` is byte-slice equality). -/
def AuthenticateSignature (hm : String → String → List Nat) (m : Manager)
    (in_ : SignatureInput) (now : Int) : String × Bool :=
  if m.enabled = false then ("", true)
  else if in_.AccessKeyID = "" ∨ in_.Signature = "" ∨ in_.Timestamp = 0 ∨ in_.Nonce = "" then
    ("", false)
  else if timeUnix in_.Timestamp < now - 5 * minuteNs ∨
      timeUnix in_.Timestamp > now + 5 * minuteNs then ("", false)
  else
    match alLookup in_.AccessKeyID m.temps with
    | none => ("", false)
    | some record =>
      if now > record.expiresAt then ("", false)
      else
        match hexDecode (hmacSHA256Hex hm record.secret (canonicalString in_)),
            hexDecode in_.Signature with
        | some a, some b => if a = b then (record.subject, true) else ("", false)
        | _, _ => ("", false)

/-- Model of `validateCallbackURL`; `some` is the error case (`err != nil`). -/
def validateCallbackURL (raw : String) : Option AuthErr :=
  match urlParse raw with
  | none => some (.forbidden "invalid callback url")
  | some u =>
    if u.Scheme ≠ "http" ∧ u.Scheme ≠ "https" then
      some (.forbidden "callback url scheme must be http or https")
    else if u.Host = "" then some (.forbidden "callback url host is empty")
    else none

/-- Go map element insert `set[u] = struct{}{}` on a list-modelled set. -/
def setInsert (u : String) (set : List String) : List String :=
  if u ∈ set then set else set ++ [u]

/-- The validation loop of `SetUsageCallbackAllowlist`: empty strings are
skipped, the first invalid URL aborts with its error, valid URLs are
collected into the set. -/
def collectCallbackURLs : List String → List String → List String × Option AuthErr
  | [], set => (set, none)
  | u :: rest, set =>
    if u = "" then collectCallbackURLs rest set
    else
      match validateCallbackURL u with
      | some e => (set, some e)
      | none => collectCallbackURLs rest (setInsert u set)

/-- Model of `Manager.SetUsageCallbackAllowlist`: returns the (possibly unchanged)
manager state and the error, mirroring a mutating method returning `error`;
the map is only touched after the whole URL list has validated. -/
def SetUsageCallbackAllowlist (m : Manager) (subject : String) (urls : List String) :
    Manager × Option AuthErr :=
  if m.enabled = false then (m, some (.forbidden "auth not configured"))
  else if subject = "" then (m, some (.forbidden "missing subject"))
  else
    match collectCallbackURLs urls [] with
    | (_, some e) => (m, some e)
    | (set, none) =>
      if set = [] then
        ({ m with usageCallbackAllowlist := alErase subject m.usageCallbackAllowlist }, none)
      else
        ({ m with usageCallbackAllowlist := alSet subject set m.usageCallbackAllowlist }, none)

/-- Model of `Manager.UsageCallbackAllowlist`: nil for disabled auth, empty subject,
absent or empty set; otherwise the sorted elements. -/
def UsageCallbackAllowlist (m : Manager) (subject : String) : List String :=
  if m.enabled = false then []
  else if subject = "" then []
  else
    match alLookup subject m.usageCallbackAllowlist with
    | none => []
    | some set => if set = [] then [] else sortStrings set

/-! ### Identity context: the context.go part of the auth package -/

/-- Model of `auth.Method`, a string type; `""` means no method bound. -/
abbrev Method := String

def MethodServiceToken : Method := "service_token"

def MethodSignature : Method := "signature"

/-- The call context restricted to the two values the auth package stores
on it (`ctxKeySubject`, `ctxKeyMethod`); an unset value reads as `""`. -/
structure Ctx where
  subject : String := ""
  method : Method := ""
deriving DecidableEq

def WithSubject (ctx : Ctx) (subject : String) : Ctx :=
  if subject = "" then ctx else { ctx with subject := subject }

def SubjectFromContext (ctx : Ctx) : String := ctx.subject

def WithMethod (ctx : Ctx) (m : Method) : Ctx :=
  if m = "" then ctx else { ctx with method := m }

def MethodFromContext (ctx : Ctx) : Method := ctx.method

/-- Model of `context.Background()` as the server hands it to the interceptor: no
subject and no method bound. -/
def backgroundCtx : Ctx := {}

/-! ### Authentication interceptor: src/internal/infrastructure/auth/interceptors.go -/

/-- Incoming gRPC metadata: a multimap from (lower-case) keys to values. -/
def Md := String → List String

def mdServiceToken : String := "x-service-token"

def mdAccessKeyID : String := "x-access-key-id"

def mdSignature : String := "x-signature"

def mdTimestamp : String := "x-timestamp"

def mdNonce : String := "x-nonce"

def mdCallbackURL : String := "x-usage-callback"

def mdHTTPMethod : String := "x-llmgw-http-method"

def mdHTTPPath : String := "x-llmgw-http-path"

def mdHTTPQuery : String := "x-llmgw-http-query"

def mdBodySHA256 : String := "x-llmgw-body-sha256"

/-- Model of `first` from interceptors.go. -/
def first : List String → String
  | [] => ""
  | x :: _ => x

/-- Two's-complement wrap-around of Go `int64` arithmetic (the literals are
`2^63` and `2^64`). -/
def w64 (x : Int) : Int :=
  (x + 9223372036854775808) % 18446744073709551616 - 9223372036854775808

/-- The loop of `parseInt64`: a leading `-` sets the sign, any other
non-digit anywhere returns 0, digits accumulate with `int64` wrap-around.
The index `i` is the position in the string (Go uses the byte offset; only
offset 0 is ever compared, and the first rune is at byte offset 0 exactly
when it is at rune position 0). -/
def parseInt64Loop : List Char → Nat → Int → Int → Int
  | [], _, sign, n => w64 (n * sign)
  | c :: rest, i, sign, n =>
    if i = 0 ∧ c = '-' then parseInt64Loop rest (i + 1) (-1) n
    else if c.toNat < 48 ∨ 57 < c.toNat then 0
    else parseInt64Loop rest (i + 1) sign (w64 (w64 (n * 10) + (c.toNat - 48)))

/-- Model of `parseInt64` from interceptors.go. -/
def parseInt64 (s : String) : Int := parseInt64Loop s.data 0 1 0

/-- A character that makes a timestamp string malformed when it occurs at
position `i`: not a decimal digit, and not a minus sign at position 0. -/
abbrev badTimestampChar (i : Nat) (c : Char) : Prop :=
  ¬ (48 ≤ c.toNat ∧ c.toNat ≤ 57) ∧ ¬ (i = 0 ∧ c = '-')

/-- gRPC status codes used by this subsystem. -/
inductive Code where
  | Unauthenticated
  | PermissionDenied
  | InvalidArgument
  | FailedPrecondition
  | Internal
deriving DecidableEq

/-- A `status.Error` value. -/
structure Status where
  code : Code
  msg : String
deriving DecidableEq

/-- Model of `authenticate` from interceptors.go: service-token path first, then the
issuance guard, then the signature path assembled from metadata. -/
def authenticate (hm : String → String → List Nat) (mgr : Manager) (md : Md)
    (fullMethod : String) (now : Int) : Except Status (String × Method) :=
  if first (md mdServiceToken) ≠ "" then
    match AuthenticateServiceToken mgr (first (md mdServiceToken)) with
    | (subject, true) => .ok (subject, MethodServiceToken)
    | (_, false) => .error ⟨.Unauthenticated, "invalid service token"⟩
  else if hasSuffixStr fullMethod "/IssueTemporaryCredentials" then
    .error ⟨.Unauthenticated, "service token required"⟩
  else
    match AuthenticateSignature hm mgr
        { AccessKeyID := first (md mdAccessKeyID)
          Signature := first (md mdSignature)
          Timestamp := parseInt64 (first (md mdTimestamp))
          Nonce := first (md mdNonce)
          CallbackURL := first (md mdCallbackURL)
          HTTPMethod := first (md mdHTTPMethod)
          HTTPPath := first (md mdHTTPPath)
          HTTPQuery := first (md mdHTTPQuery)
          BodySHA256 := first (md mdBodySHA256)
          GRPCFullMethod := fullMethod } now with
    | (subject, true) => .ok (subject, MethodSignature)
    | (_, false) => .error ⟨.Unauthenticated, "invalid signature"⟩

/-- Model of `UnaryServerInterceptor`, viewed as the transformation of the call
context handed to the handler (`.ok` with the enriched context) or the
rejection of the call (`.error`); a disabled manager passes the context
through untouched. -/
def UnaryServerInterceptor (hm : String → String → List Nat) (mgr : Manager) (md : Md)
    (fullMethod : String) (now : Int) (ctx : Ctx) : Except Status Ctx :=
  if mgr.enabled = false then .ok ctx
  else
    match authenticate hm mgr md fullMethod now with
    | .ok (subject, method) => .ok (WithMethod (WithSubject ctx subject) method)
    | .error e => .error e

/-! ### gRPC handlers for the usage-callback operations:
src/internal/infrastructure/transport/grpcadapter/llmgateway_service.go -/

/-- Model of `LLMGatewayService.SetUsageCallback`: the `authMgr == nil` guard, the
ServiceToken-only method gate, the subject gate, the manager call with its
error mapping, and the read-back of the resulting allowlist. -/
def SetUsageCallback (authMgr : Option Manager) (ctx : Ctx) (urls : List String) :
    Except Status (List String × Manager) :=
  match authMgr with
  | none => .error ⟨.FailedPrecondition, "auth not configured"⟩
  | some mgr =>
    if MethodFromContext ctx ≠ MethodServiceToken then
      .error ⟨.PermissionDenied, "service token required"⟩
    else if SubjectFromContext ctx = "" then .error ⟨.PermissionDenied, "missing subject"⟩
    else
      match SetUsageCallbackAllowlist mgr (SubjectFromContext ctx) urls with
      | (_, some (.forbidden msg)) =>
        .error ⟨.InvalidArgument, AuthErr.errString (.forbidden msg)⟩
      | (_, some .unauthenticated) =>
        .error ⟨.Internal, AuthErr.errString .unauthenticated⟩
      | (mgr2, none) => .ok (UsageCallbackAllowlist mgr2 (SubjectFromContext ctx), mgr2)

/-- Model of `LLMGatewayService.GetUsageCallback`. -/
def GetUsageCallback (authMgr : Option Manager) (ctx : Ctx) : Except Status (List String) :=
  match authMgr with
  | none => .error ⟨.FailedPrecondition, "auth not configured"⟩
  | some mgr =>
    if MethodFromContext ctx ≠ MethodServiceToken then
      .error ⟨.PermissionDenied, "service token required"⟩
    else if SubjectFromContext ctx = "" then .error ⟨.PermissionDenied, "missing subject"⟩
    else .ok (UsageCallbackAllowlist mgr (SubjectFromContext ctx))

/-! ### HTTP transport bridge: the httpgateway server (unnamed source file,
`Start`), which stamps the four `x-llmgw-*` keys before dispatching to the
grpc-gateway mux -/

/-- An inbound HTTP request as the bridge handler sees it.  Header keys are
matched case-insensitively (Go canonicalizes MIME header keys); the body is
a byte list. -/
structure HTTPRequest where
  Method : String
  URLPath : String
  URLRawQuery : String
  Header : List (String × String)
  Body : List Nat

/-- Model of `Header.Get`: first value whose key matches case-insensitively. -/
def hGet (k : String) : List (String × String) → String
  | [] => ""
  | (k', v) :: r => if lowerStr k' = lowerStr k then v else hGet k r

/-- Removal of every entry whose key matches case-insensitively. -/
def hRemove (k : String) : List (String × String) → List (String × String)
  | [] => []
  | (k', v) :: r => if lowerStr k' = lowerStr k then hRemove k r else (k', v) :: hRemove k r

/-- Model of `Header.Set`: replace every value for the (canonicalized) key. -/
def hSet (k v : String) (hs : List (String × String)) : List (String × String) :=
  (k, v) :: hRemove k hs

def maxBody : Nat := 10 <<< 20

/-- The header state after the bridge's three unconditional
`r.Header.Set` calls stamping the request line. -/
def bridgeStamped (r : HTTPRequest) : List (String × String) :=
  hSet "X-LLMGW-HTTP-Query" r.URLRawQuery
    (hSet "X-LLMGW-HTTP-Path" r.URLPath (hSet "X-LLMGW-HTTP-Method" r.Method r.Header))

/-- Computation of `hasSig` in the bridge handler: some signing material is present. -/
def bridgeHasSig (r : HTTPRequest) : Prop :=
  hGet "X-Access-Key-Id" (bridgeStamped r) ≠ "" ∨ hGet "X-Signature" (bridgeStamped r) ≠ "" ∨
    hGet "X-Timestamp" (bridgeStamped r) ≠ "" ∨ hGet "X-Nonce" (bridgeStamped r) ≠ ""

instance (r : HTTPRequest) : Decidable (bridgeHasSig r) := by
  unfold bridgeHasSig; infer_instance

/-- The bridge handler (`Start`, the `mux.Handle("/", ...)` closure), with
the SHA-256 primitive abstracted as `sha256`.  It unconditionally overwrites
the three HTTP-context headers from the request line, then hashes the empty
byte sequence (no signing material) or the capped body, overwrites the
body-hash header, and dispatches; `none` is the 413 rejection. -/
def bridgeDispatch (sha256 : List Nat → List Nat) (r : HTTPRequest) : Option HTTPRequest :=
  if ¬ bridgeHasSig r then
    some { r with Header := hSet "X-LLMGW-Body-SHA256" (hexEncode (sha256 [])) (bridgeStamped r) }
  else if r.Body.length > maxBody then none
  else
    some { r with Header := (hSet "X-LLMGW-Body-SHA256" (hexEncode (sha256 r.Body))
      (bridgeStamped r)) }

/-- The four bridge-owned metadata values as the incoming-header matcher
forwards them to the gRPC side (`WithIncomingHeaderMatcher` maps each of
the four keys to its lower-case form). -/
def forwardedAuthMetadata (sha256 : List Nat → List Nat) (r : HTTPRequest) :
    Option (String × String × String × String) :=
  (bridgeDispatch sha256 r).map fun d =>
    (hGet mdHTTPMethod d.Header, hGet mdHTTPPath d.Header,
      hGet mdHTTPQuery d.Header, hGet mdBodySHA256 d.Header)

/-! ## Supporting lemmas -/

theorem charListLe_total : ∀ a b : List Char, charListLe a b = true ∨ charListLe b a = true := by
  intro a
  induction a with
  | nil => intro b; left; rfl
  | cons x xs ih =>
    intro b
    cases b with
    | nil => right; rfl
    | cons y ys =>
      simp only [charListLe]
      rcases Nat.lt_trichotomy x.toNat y.toNat with h | h | h
      · left; simp [h]
      · have hxy : ¬ x.toNat < y.toNat := by omega
        have hyx : ¬ y.toNat < x.toNat := by omega
        rcases ih ys with h2 | h2
        · left; simp [hxy, hyx, h2]
        · right; simp [hxy, hyx, h2]
      · right; simp [h]

theorem charListLe_trans : ∀ a b c : List Char,
    charListLe a b = true → charListLe b c = true → charListLe a c = true := by
  intro a
  induction a with
  | nil => intro b c _ _; rfl
  | cons x xs ih =>
    intro b c hab hbc
    cases b with
    | nil => simp [charListLe] at hab
    | cons y ys =>
      cases c with
      | nil => simp [charListLe] at hbc
      | cons z zs =>
        simp only [charListLe] at hab hbc ⊢
        by_cases hxy : x.toNat < y.toNat
        · by_cases hyz : y.toNat < z.toNat
          · simp [show x.toNat < z.toNat by omega]
          · simp only [if_pos hxy] at hab
            by_cases hzy : z.toNat < y.toNat
            · simp [hyz, hzy] at hbc
            · have : x.toNat < z.toNat := by omega
              simp [this]
        · by_cases hyx : y.toNat < x.toNat
          · simp [hxy, hyx] at hab
          · have hxey : x.toNat = y.toNat := by omega
            simp only [if_neg hxy, if_neg hyx] at hab
            by_cases hyz : y.toNat < z.toNat
            · simp [show x.toNat < z.toNat by omega]
            · by_cases hzy : z.toNat < y.toNat
              · simp [hyz, hzy] at hbc
              · simp only [if_neg hyz, if_neg hzy] at hbc
                have h1 : ¬ x.toNat < z.toNat := by omega
                have h2 : ¬ z.toNat < x.toNat := by omega
                simp [h1, h2, ih ys zs hab hbc]

instance : IsTotal String strLe :=
  ⟨fun a b => charListLe_total a.data b.data⟩

instance : IsTrans String strLe :=
  ⟨fun a b c => charListLe_trans a.data b.data c.data⟩

theorem sortStrings_sorted (l : List String) : (sortStrings l).Sorted strLe :=
  List.sorted_insertionSort strLe l

theorem sortStrings_perm (l : List String) : List.Perm (sortStrings l) l :=
  List.perm_insertionSort strLe l

theorem mem_sortStrings {u : String} {l : List String} : u ∈ sortStrings l ↔ u ∈ l :=
  (sortStrings_perm l).mem_iff

theorem sortStrings_nodup {l : List String} (h : l.Nodup) : (sortStrings l).Nodup :=
  (sortStrings_perm l).nodup_iff.2 h

/-- Characters of appended strings. -/
theorem String.data_app (a b : String) : (a ++ b).data = a.data ++ b.data := by
  cases a; cases b; rfl

theorem nlCount_app (a b : String) : nlCount (a ++ b) = nlCount a + nlCount b := by
  unfold nlCount
  rw [String.data_app, List.count_append]

theorem noNL_nlCount {s : String} (h : noNL s) : nlCount s = 0 :=
  List.count_eq_zero.2 h

/-- No decimal digit is a newline. -/
theorem digitChar_ne_newline : ∀ d : Fin 10, Char.ofNat (48 + d.val) ≠ '\n' := by decide

theorem natDecAux_no_newline : ∀ fuel n, '\n' ∉ natDecAux fuel n := by
  intro fuel
  induction fuel with
  | zero => intro n h; simp [natDecAux] at h
  | succ f ih =>
    intro n h
    simp only [natDecAux] at h
    by_cases hn : n = 0
    · simp [hn] at h
    · rw [if_neg hn] at h
      rcases List.mem_append.1 h with h1 | h1
      · exact ih _ h1
      · have hd : n % 10 < 10 := Nat.mod_lt _ (by omega)
        rcases List.mem_singleton.1 h1 with h2
        exact digitChar_ne_newline ⟨n % 10, hd⟩ h2.symm

theorem natDec_no_newline (n : Nat) : '\n' ∉ (natDec n).data := by
  unfold natDec
  by_cases hn : n = 0
  · simp only [if_pos hn]; decide
  · rw [if_neg hn]; exact natDecAux_no_newline n n

theorem intDec_no_newline (i : Int) : noNL (intDec i) := by
  unfold noNL intDec
  by_cases hi : i < 0
  · rw [if_pos hi, String.data_app]
    intro h
    rcases List.mem_append.1 h with h1 | h1
    · simp only [show ("-" : String).data = ['-'] from rfl] at h1
      simp at h1
    · exact natDec_no_newline _ h1
  · rw [if_neg hi]; exact natDec_no_newline _

theorem fromHexChar_lt {c : Char} {d : Nat} (h : fromHexChar c = some d) : d < 16 := by
  unfold fromHexChar at h
  split at h
  · rename_i hc; injection h with h'; omega
  · split at h
    · rename_i hc; injection h with h'; omega
    · split at h
      · rename_i hc; injection h with h'; omega
      · exact absurd h (by simp)

/-- Every byte produced by decoding is an actual byte value. -/
theorem hexDecodeL_bytes_lt : ∀ (l : List Char) (bs : List Nat),
    hexDecodeL l = some bs → ∀ b ∈ bs, b < 256
  | [], bs, h, b, hb => by
    injection h with h'
    subst h'
    simp at hb
  | [c], bs, h, b, hb => by simp [hexDecodeL] at h
  | c1 :: c2 :: r, bs, h, b, hb => by
    simp only [hexDecodeL] at h
    rcases h1 : fromHexChar c1 with _ | hi <;> rw [h1] at h
    · simp at h
    rcases h2 : fromHexChar c2 with _ | lo <;> rw [h2] at h
    · simp at h
    rcases h3 : hexDecodeL r with _ | rest <;> rw [h3] at h
    · simp at h
    injection h with h'
    subst h'
    rcases List.mem_cons.1 hb with hb1 | hb1
    · have := fromHexChar_lt h1
      have := fromHexChar_lt h2
      omega
    · exact hexDecodeL_bytes_lt r rest h3 b hb1

theorem fromHexChar_hexDigitChar : ∀ d : Fin 16, fromHexChar (hexDigitChar d.val) = some d.val := by
  decide

/-- Round trip: decoding an encoded byte list recovers it. -/
theorem hexDecodeL_hexEncodeL {bs : List Nat} (h : ∀ b ∈ bs, b < 256) :
    hexDecodeL (hexEncodeL bs) = some bs := by
  induction bs with
  | nil => rfl
  | cons b r ih =>
    have hb : b < 256 := h b (List.mem_cons_self _ _)
    have hhi : b / 16 < 16 := by omega
    have hlo : b % 16 < 16 := Nat.mod_lt _ (by omega)
    simp only [hexEncodeL, hexDecodeL]
    rw [fromHexChar_hexDigitChar ⟨b / 16, hhi⟩, fromHexChar_hexDigitChar ⟨b % 16, hlo⟩,
      ih (fun x hx => h x (List.mem_cons_of_mem _ hx))]
    simp only [Option.some.injEq, List.cons.injEq, and_true]
    omega

theorem fromHexChar_hexDigitChar_of_ge {d : Nat} (hd : 16 ≤ d) :
    fromHexChar (hexDigitChar d) = none := by
  unfold hexDigitChar
  rw [if_neg (by omega), if_neg (by omega)]
  decide

/-- Decoding the encoding of a list with an out-of-range element fails. -/
theorem hexDecodeL_hexEncodeL_of_big {bs : List Nat} (h : ¬ ∀ b ∈ bs, b < 256) :
    hexDecodeL (hexEncodeL bs) = none := by
  induction bs with
  | nil => exact absurd (by simp) h
  | cons b r ih =>
    simp only [hexEncodeL, hexDecodeL]
    by_cases hb : b < 256
    · have hr : ¬ ∀ x ∈ r, x < 256 := by
        intro hr
        exact h (by
          intro x hx
          rcases List.mem_cons.1 hx with hx1 | hx1
          · exact hx1 ▸ hb
          · exact hr x hx1)
      rw [ih hr]
      rcases fromHexChar (hexDigitChar (b / 16)) with _ | hi <;>
        rcases fromHexChar (hexDigitChar (b % 16)) with _ | lo <;> rfl
    · have hhi : 16 ≤ b / 16 := by omega
      rw [fromHexChar_hexDigitChar_of_ge hhi]

theorem hexEncodeL_ne_nil {bs : List Nat} (h : bs ≠ []) : hexEncodeL bs ≠ [] := by
  cases bs with
  | nil => exact absurd rfl h
  | cons b r => simp [hexEncodeL]

theorem alLookup_alSet_self {α : Type} (k : String) (v : α) (l : List (String × α)) :
    alLookup k (alSet k v l) = some v := by
  induction l with
  | nil => simp [alSet, alLookup]
  | cons p r ih =>
    rcases p with ⟨k', v'⟩
    simp only [alSet]
    by_cases h : k' = k
    · rw [if_pos h]; simp [alLookup]
    · rw [if_neg h]; simp only [alLookup, if_neg h]; exact ih

theorem alLookup_alErase_self {α : Type} (k : String) (l : List (String × α)) :
    alLookup k (alErase k l) = none := by
  induction l with
  | nil => rfl
  | cons p r ih =>
    rcases p with ⟨k', v'⟩
    simp only [alErase]
    by_cases h : k' = k
    · rw [if_pos h]; exact ih
    · rw [if_neg h]; simp only [alLookup, if_neg h]; exact ih

theorem hexEncode_ne_empty {bs : List Nat} (h : bs ≠ []) : hexEncode bs ≠ "" := by
  unfold hexEncode
  intro he
  apply hexEncodeL_ne_nil h
  have h2 := congrArg String.data he
  simpa using h2

/-- Full characterization of `AuthenticateSignature` in enabled mode. -/
theorem authSig_enabled_iff (hm : String → String → List Nat) (m : Manager)
    (in_ : SignatureInput) (now : Int) (hen : m.enabled = true) (s : String) :
    AuthenticateSignature hm m in_ now = (s, true) ↔
      (in_.AccessKeyID ≠ "" ∧ in_.Signature ≠ "" ∧ in_.Nonce ≠ "" ∧ in_.Timestamp ≠ 0 ∧
        now - 5 * minuteNs ≤ timeUnix in_.Timestamp ∧
        timeUnix in_.Timestamp ≤ now + 5 * minuteNs ∧
        ∃ record : tempRecord, alLookup in_.AccessKeyID m.temps = some record ∧
          ¬ now > record.expiresAt ∧
          hexDecode in_.Signature = some (hm record.secret (canonicalString in_)) ∧
          s = record.subject) := by
  have hne : ¬ (m.enabled = false) := by simp [hen]
  unfold AuthenticateSignature
  rw [if_neg hne]
  split
  · rename_i hmiss
    constructor
    · intro h
      exact absurd (congrArg Prod.snd h) (by simp)
    · rintro ⟨h1, h2, h3, h4, -⟩
      rcases hmiss with h | h | h | h
      · exact absurd h h1
      · exact absurd h h2
      · exact absurd h h4
      · exact absurd h h3
  · rename_i hmiss
    push_neg at hmiss
    obtain ⟨hak, hsg, hts, hnn⟩ := hmiss
    split
    · rename_i hwin
      constructor
      · intro h
        exact absurd (congrArg Prod.snd h) (by simp)
      · rintro ⟨-, -, -, -, hw1, hw2, -⟩
        rcases hwin with h | h <;> omega
    · rename_i hwin
      push_neg at hwin
      obtain ⟨hw1, hw2⟩ := hwin
      split
      · rename_i hlook
        constructor
        · intro h
          exact absurd (congrArg Prod.snd h) (by simp)
        · rintro ⟨-, -, -, -, -, -, record, hrec, -⟩
          rw [hlook] at hrec
          cases hrec
      · rename_i record hlook
        split
        · rename_i hexp
          constructor
          · intro h
            exact absurd (congrArg Prod.snd h) (by simp)
          · rintro ⟨-, -, -, -, -, -, record', hrec, hnexp, -⟩
            rw [hlook] at hrec
            injection hrec with hrec
            exact absurd (hrec ▸ hexp) hnexp
        · rename_i hexp
          by_cases hbytes : ∀ b ∈ hm record.secret (canonicalString in_), b < 256
          · have hdecE : hexDecode (hmacSHA256Hex hm record.secret (canonicalString in_)) =
                some (hm record.secret (canonicalString in_)) := by
              unfold hexDecode hmacSHA256Hex hexEncode
              exact hexDecodeL_hexEncodeL hbytes
            split
            · rename_i a b hdA hdB
              rw [hdecE] at hdA
              injection hdA with hdA
              split
              · rename_i hab
                constructor
                · intro h
                  refine ⟨hak, hsg, hnn, hts, hw1, hw2, record, hlook, hexp, ?_, ?_⟩
                  · rw [hdB, ← hab, hdA]
                  · exact (congrArg Prod.fst h).symm
                · rintro ⟨-, -, -, -, -, -, record', hrec, -, hdec, hs⟩
                  rw [hlook] at hrec
                  injection hrec with hrec
                  rw [hs, ← hrec]
              · rename_i hab
                constructor
                · intro h
                  exact absurd (congrArg Prod.snd h) (by simp)
                · rintro ⟨-, -, -, -, -, -, record', hrec, -, hdec, -⟩
                  rw [hlook] at hrec
                  injection hrec with hrec
                  rw [← hrec] at hdec
                  rw [hdB] at hdec
                  injection hdec with hdec
                  exact absurd (by rw [← hdA, hdec] : a = b) hab
            · rename_i hnomatch
              constructor
              · intro h
                exact absurd (congrArg Prod.snd h) (by simp)
              · rintro ⟨-, -, -, -, -, -, record', hrec, -, hdec, -⟩
                rw [hlook] at hrec
                injection hrec with hrec
                rw [← hrec] at hdec
                exact (hnomatch (hm record.secret (canonicalString in_))
                  (hm record.secret (canonicalString in_)) hdecE hdec).elim
          · have hdecE : hexDecode (hmacSHA256Hex hm record.secret (canonicalString in_)) =
                none := by
              unfold hexDecode hmacSHA256Hex hexEncode
              exact hexDecodeL_hexEncodeL_of_big hbytes
            split
            · rename_i a b hdA hdB
              rw [hdecE] at hdA
              cases hdA
            · rename_i hnomatch
              constructor
              · intro h
                exact absurd (congrArg Prod.snd h) (by simp)
              · rintro ⟨-, -, -, -, -, -, record', hrec, -, hdec, -⟩
                rw [hlook] at hrec
                injection hrec with hrec
                refine absurd ?_ hbytes
                rw [hrec]
                exact hexDecodeL_bytes_lt _ _ hdec

/-- Every rejection of `AuthenticateSignature` carries the empty subject. -/
theorem authSig_failure_shape (hm : String → String → List Nat) (m : Manager)
    (in_ : SignatureInput) (now : Int) :
    (AuthenticateSignature hm m in_ now).2 = false →
      AuthenticateSignature hm m in_ now = ("", false) := by
  unfold AuthenticateSignature
  repeat' split
  all_goals intro h
  all_goals first | rfl | (exact absurd h (by simp))

theorem validateCallbackURL_forbidden {u : String} {e : AuthErr}
    (h : validateCallbackURL u = some e) : ∃ msg, e = AuthErr.forbidden msg := by
  unfold validateCallbackURL at h
  split at h
  · injection h with h'; exact ⟨_, h'.symm⟩
  · split at h
    · injection h with h'; exact ⟨_, h'.symm⟩
    · split at h
      · injection h with h'; exact ⟨_, h'.symm⟩
      · cases h

theorem validateCallbackURL_empty :
    validateCallbackURL "" = some (.forbidden "callback url scheme must be http or https") := by
  decide

/-- An invalid non-empty URL anywhere in the list makes the collection loop
fail with a forbidden error. -/
theorem collectCallbackURLs_err : ∀ (urls acc : List String),
    (∃ u ∈ urls, u ≠ "" ∧ validateCallbackURL u ≠ none) →
    ∃ msg, (collectCallbackURLs urls acc).2 = some (.forbidden msg) := by
  intro urls
  induction urls with
  | nil =>
    rintro acc ⟨u, hu, -⟩
    simp at hu
  | cons u0 rest ih =>
    rintro acc ⟨u, hu, hne, hbad⟩
    simp only [collectCallbackURLs]
    by_cases h0 : u0 = ""
    · rw [if_pos h0]
      apply ih
      refine ⟨u, ?_, hne, hbad⟩
      rcases List.mem_cons.1 hu with h | h
      · exact absurd (h.trans h0) hne
      · exact h
    · rw [if_neg h0]
      cases hv : validateCallbackURL u0 with
      | some e =>
        obtain ⟨msg, hmsg⟩ := validateCallbackURL_forbidden hv
        exact ⟨msg, by rw [hmsg]⟩
      | none =>
        apply ih
        rcases List.mem_cons.1 hu with h | h
        · exact absurd (h ▸ hv) hbad
        · exact ⟨u, h, hne, hbad⟩

theorem mem_setInsert (u v : String) (set : List String) :
    v ∈ setInsert u set ↔ v ∈ set ∨ v = u := by
  unfold setInsert
  split
  · rename_i h
    constructor
    · intro hv; exact Or.inl hv
    · rintro (hv | rfl)
      · exact hv
      · exact h
  · simp [List.mem_append]

theorem setInsert_nodup {u : String} {set : List String} (h : set.Nodup) :
    (setInsert u set).Nodup := by
  unfold setInsert
  split
  · exact h
  · rename_i hne
    refine List.Nodup.append h (List.nodup_singleton u) ?_
    intro a ha hb
    rw [List.mem_singleton] at hb
    exact hne (hb ▸ ha)

/-- When every URL validates, the collection loop succeeds; its set holds
exactly the accumulated and listed URLs and preserves freedom from
duplicates. -/
theorem collectCallbackURLs_ok : ∀ (urls acc : List String),
    (∀ u ∈ urls, validateCallbackURL u = none) →
    ∃ set, collectCallbackURLs urls acc = (set, none) ∧
      (∀ u, u ∈ set ↔ u ∈ acc ∨ u ∈ urls) ∧ (acc.Nodup → set.Nodup) := by
  intro urls
  induction urls with
  | nil =>
    intro acc _
    exact ⟨acc, rfl, fun u => by simp, fun h => h⟩
  | cons u0 rest ih =>
    intro acc hvalid
    have hv0 : validateCallbackURL u0 = none := hvalid u0 (List.mem_cons_self _ _)
    have h0 : u0 ≠ "" := by
      intro h
      rw [h, validateCallbackURL_empty] at hv0
      cases hv0
    simp only [collectCallbackURLs]
    rw [if_neg h0, hv0]
    obtain ⟨set, hset, hmem, hnd⟩ :=
      ih (setInsert u0 acc) (fun u hu => hvalid u (List.mem_cons_of_mem _ hu))
    refine ⟨set, hset, ?_, fun h => hnd (setInsert_nodup h)⟩
    intro u
    rw [hmem u, mem_setInsert]
    constructor
    · rintro ((h | h) | h)
      · exact Or.inl h
      · exact Or.inr (h ▸ List.mem_cons_self _ _)
      · exact Or.inr (List.mem_cons_of_mem _ h)
    · rintro (h | h)
      · exact Or.inl (Or.inl h)
      · rcases List.mem_cons.1 h with h1 | h1
        · exact Or.inl (Or.inr h1)
        · exact Or.inr h1

/-- The loop of `parseInt64` returns 0 whenever the remaining characters
contain, at absolute position `i + j`, a character that is neither a digit
nor a minus sign at position 0. -/
theorem parseInt64Loop_bad : ∀ (l : List Char) (i : Nat) (sign n : Int),
    (∃ j c, l.get? j = some c ∧ badTimestampChar (i + j) c) →
    parseInt64Loop l i sign n = 0 := by
  intro l
  induction l with
  | nil =>
    rintro i sign n ⟨j, c, hget, -⟩
    simp at hget
  | cons c0 rest ih =>
    rintro i sign n ⟨j, c, hget, hbad⟩
    simp only [parseInt64Loop]
    obtain ⟨hb1, hb2⟩ := hbad
    by_cases hm0 : i = 0 ∧ c0 = '-'
    · rw [if_pos hm0]
      apply ih
      cases j with
      | zero =>
        simp only [List.get?] at hget
        injection hget with hget
        refine absurd ?_ hb2
        refine ⟨by omega, ?_⟩
        rw [← hget]
        exact hm0.2
      | succ j' =>
        refine ⟨j', c, hget, hb1, ?_⟩
        omega
    · rw [if_neg hm0]
      by_cases hd : c0.toNat < 48 ∨ 57 < c0.toNat
      · rw [if_pos hd]
      · rw [if_neg hd]
        apply ih
        cases j with
        | zero =>
          simp only [List.get?] at hget
          injection hget with hget
          subst hget
          exact absurd (by omega) hb1
        | succ j' =>
          refine ⟨j', c, hget, hb1, ?_⟩
          omega

theorem hGet_hSet_eq {k k' : String} (v : String) (hs : List (String × String))
    (h : lowerStr k' = lowerStr k) : hGet k (hSet k' v hs) = v := by
  unfold hSet hGet
  rw [if_pos h]

theorem hGet_hRemove_ne (k k' : String) (hs : List (String × String))
    (h : lowerStr k ≠ lowerStr k') : hGet k (hRemove k' hs) = hGet k hs := by
  induction hs with
  | nil => rfl
  | cons p r ih =>
    rcases p with ⟨pk, pv⟩
    simp only [hRemove]
    by_cases hf : lowerStr pk = lowerStr k'
    · rw [if_pos hf, ih]
      simp only [hGet]
      rw [if_neg (fun hp : lowerStr pk = lowerStr k => h (hp ▸ hf))]
    · rw [if_neg hf]
      simp only [hGet]
      by_cases hp : lowerStr pk = lowerStr k
      · rw [if_pos hp, if_pos hp]
      · rw [if_neg hp, if_neg hp, ih]

theorem hGet_hSet_ne {k k' : String} (v : String) (hs : List (String × String))
    (h : lowerStr k ≠ lowerStr k') : hGet k (hSet k' v hs) = hGet k hs := by
  unfold hSet
  show (if lowerStr k' = lowerStr k then v else hGet k (hRemove k' hs)) = hGet k hs
  rw [if_neg (fun hh => h hh.symm), hGet_hRemove_ne k k' hs h]

/-- Closed-form evaluation of the bridge's forwarded metadata: the three
HTTP-context values come from the request line, the body hash from the body
(or the empty byte sequence when no signing material is present), never
from inbound header values for those keys. -/
theorem forwardedAuthMetadata_eval (sha256 : List Nat → List Nat) (r : HTTPRequest) :
    forwardedAuthMetadata sha256 r =
      if hGet "X-Access-Key-Id" r.Header ≠ "" ∨ hGet "X-Signature" r.Header ≠ "" ∨
          hGet "X-Timestamp" r.Header ≠ "" ∨ hGet "X-Nonce" r.Header ≠ "" then
        (if r.Body.length > maxBody then none
         else some (r.Method, r.URLPath, r.URLRawQuery, hexEncode (sha256 r.Body)))
      else some (r.Method, r.URLPath, r.URLRawQuery, hexEncode (sha256 [])) := by
  have hhs : bridgeHasSig r ↔
      (hGet "X-Access-Key-Id" r.Header ≠ "" ∨ hGet "X-Signature" r.Header ≠ "" ∨
        hGet "X-Timestamp" r.Header ≠ "" ∨ hGet "X-Nonce" r.Header ≠ "") := by
    unfold bridgeHasSig bridgeStamped
    rw [hGet_hSet_ne _ _ (by decide), hGet_hSet_ne _ _ (by decide),
      hGet_hSet_ne _ _ (by decide), hGet_hSet_ne _ _ (by decide),
      hGet_hSet_ne _ _ (by decide), hGet_hSet_ne _ _ (by decide),
      hGet_hSet_ne _ _ (by decide), hGet_hSet_ne _ _ (by decide),
      hGet_hSet_ne _ _ (by decide), hGet_hSet_ne _ _ (by decide),
      hGet_hSet_ne _ _ (by decide), hGet_hSet_ne _ _ (by decide)]
  have hout : ∀ sum : List Nat,
      (hGet mdHTTPMethod (hSet "X-LLMGW-Body-SHA256" (hexEncode sum) (bridgeStamped r)),
        hGet mdHTTPPath (hSet "X-LLMGW-Body-SHA256" (hexEncode sum) (bridgeStamped r)),
        hGet mdHTTPQuery (hSet "X-LLMGW-Body-SHA256" (hexEncode sum) (bridgeStamped r)),
        hGet mdBodySHA256 (hSet "X-LLMGW-Body-SHA256" (hexEncode sum) (bridgeStamped r))) =
      (r.Method, r.URLPath, r.URLRawQuery, hexEncode sum) := by
    intro sum
    unfold bridgeStamped
    rw [hGet_hSet_ne _ _ (by decide), hGet_hSet_ne _ _ (by decide),
      hGet_hSet_ne _ _ (by decide), hGet_hSet_eq _ _ (by decide),
      hGet_hSet_ne _ _ (by decide), hGet_hSet_ne _ _ (by decide),
      hGet_hSet_eq _ _ (by decide), hGet_hSet_ne _ _ (by decide),
      hGet_hSet_eq _ _ (by decide), hGet_hSet_eq _ _ (by decide)]
  unfold forwardedAuthMetadata bridgeDispatch
  by_cases hc : bridgeHasSig r
  · rw [if_neg (by simpa using hc), if_pos (hhs.1 hc)]
    by_cases hlen : r.Body.length > maxBody
    · rw [if_pos hlen, if_pos hlen]
      rfl
    · rw [if_neg hlen, if_neg hlen]
      simp only [Option.map_some']
      rw [hout (sha256 r.Body)]
  · rw [if_pos hc, if_neg (fun hcc => hc (hhs.2 hcc))]
    simp only [Option.map_some']
    rw [hout (sha256 [])]

/-! ## Claim theorems -/

/-- C1: with auth enabled, `AuthenticateSignature(in, now)` returns
`(subject, ok=true)` exactly when all required fields are present
(`AccessKeyID`, `Signature`, `Nonce` non-empty, `Timestamp` non-zero),
`time.Unix(Timestamp, 0)` lies within `now ± 5` minutes, a derived
credential record for the access key exists in the store with `now` not
after its `expiresAt`, and the supplied signature hex-decodes to bytes
equal to HMAC-SHA256 of the canonical string under the record's secret; on
success the returned subject is exactly the record's stored subject, and
every other case rejects with the empty subject. -/
theorem AuthenticateSignature_success_characterization
    (hm : String → String → List Nat) (m : Manager) (in_ : SignatureInput) (now : Int)
    (hen : m.enabled = true) :
    (∀ s : String, AuthenticateSignature hm m in_ now = (s, true) ↔
      (in_.AccessKeyID ≠ "" ∧ in_.Signature ≠ "" ∧ in_.Nonce ≠ "" ∧ in_.Timestamp ≠ 0 ∧
        now - 5 * minuteNs ≤ timeUnix in_.Timestamp ∧
        timeUnix in_.Timestamp ≤ now + 5 * minuteNs ∧
        ∃ record : tempRecord, alLookup in_.AccessKeyID m.temps = some record ∧
          ¬ now > record.expiresAt ∧
          hexDecode in_.Signature = some (hm record.secret (canonicalString in_)) ∧
          s = record.subject)) ∧
    ((AuthenticateSignature hm m in_ now).2 = false →
      AuthenticateSignature hm m in_ now = ("", false)) :=
  ⟨fun s => authSig_enabled_iff hm m in_ now hen s, authSig_failure_shape hm m in_ now⟩

/-- Witness for C1: a concrete accepting run of `AuthenticateSignature`. -/
theorem AuthenticateSignature_success_characterization_witness :
    AuthenticateSignature (fun _ _ => [171, 205])
        { enabled := true, serviceTokens := [], tempTTL := 1,
          temps := [("ak", { secret := "sec", expiresAt := 2 * nsPerSec, subject := "alice" })],
          usageCallbackAllowlist := [] }
        { AccessKeyID := "ak", Signature := "abcd", Timestamp := 1, Nonce := "n" } nsPerSec =
      ("alice", true) :=
  ((AuthenticateSignature_success_characterization (fun _ _ => [171, 205]) _ _ nsPerSec rfl).1
      "alice").mpr
    ⟨by decide, by decide, by decide, by decide, by decide, by decide,
      { secret := "sec", expiresAt := 2 * nsPerSec, subject := "alice" }, rfl, by decide,
      by decide, rfl⟩

/-- C2: `canonicalString` produces, on the HTTP branch (method and path
both non-empty), the newline-join of timestamp, nonce, method, resource
(path with `"?" ++ query` appended exactly when the query is non-empty),
body hash and callback URL; on every other input (RPC fallback) the
newline-join of timestamp, nonce, the literal `"GRPC"`, the RPC full method
name and the callback URL; and it is a pure function of its input. -/
theorem canonicalString_branch_format (in_ : SignatureInput) :
    (in_.HTTPMethod ≠ "" ∧ in_.HTTPPath ≠ "" →
      canonicalString in_ = String.intercalate "\n"
        [intDec in_.Timestamp, in_.Nonce, in_.HTTPMethod,
          if in_.HTTPQuery ≠ "" then in_.HTTPPath ++ "?" ++ in_.HTTPQuery else in_.HTTPPath,
          in_.BodySHA256, in_.CallbackURL]) ∧
    (¬ (in_.HTTPMethod ≠ "" ∧ in_.HTTPPath ≠ "") →
      canonicalString in_ = String.intercalate "\n"
        [intDec in_.Timestamp, in_.Nonce, "GRPC", in_.GRPCFullMethod, in_.CallbackURL]) ∧
    (∀ a b : SignatureInput, a = b → canonicalString a = canonicalString b) := by
  refine ⟨fun h => ?_, fun h => ?_, fun a b hab => by rw [hab]⟩
  · unfold canonicalString
    rw [if_pos h]
    rfl
  · unfold canonicalString
    rw [if_neg h]
    rfl

/-- Witness for C2: the two branch formats at concrete inputs. -/
theorem canonicalString_branch_format_witness :
    canonicalString
        { Timestamp := 7, Nonce := "n1", HTTPMethod := "POST", HTTPPath := "/v1/chat",
          HTTPQuery := "a=1", BodySHA256 := "deadbeef", CallbackURL := "https://cb.example/u" } =
      String.intercalate "\n" ["7", "n1", "POST", "/v1/chat?a=1", "deadbeef",
        "https://cb.example/u"] :=
  ((canonicalString_branch_format _).1 (by decide)).trans (by decide)

/-- C3 counterexample: the claim "HTTP-branch and RPC-branch canonical
strings are never equal" is false as stated: with a newline embedded in the
HTTP path (reachable, since URL paths are percent-decoded) and an HTTP
method spelled `GRPC`, an HTTP-branch input and an RPC-branch input produce
byte-identical canonical strings. -/
theorem canonicalString_cross_branch_collision :
    ({ Timestamp := 1, Nonce := "n", HTTPMethod := "GRPC", HTTPPath := "/s\nx",
          CallbackURL := "y" } : SignatureInput).HTTPMethod ≠ "" ∧
    ({ Timestamp := 1, Nonce := "n", HTTPMethod := "GRPC", HTTPPath := "/s\nx",
          CallbackURL := "y" } : SignatureInput).HTTPPath ≠ "" ∧
    ({ Timestamp := 1, Nonce := "n", GRPCFullMethod := "/s\nx\n",
          CallbackURL := "y" } : SignatureInput).HTTPMethod = "" ∧
    canonicalString
        { Timestamp := 1, Nonce := "n", HTTPMethod := "GRPC", HTTPPath := "/s\nx",
          CallbackURL := "y" } =
      canonicalString
        { Timestamp := 1, Nonce := "n", GRPCFullMethod := "/s\nx\n", CallbackURL := "y" } :=
  ⟨by decide, by decide, rfl, by decide⟩

/-- C3 amended: provided no field of either input contains a newline
character, an HTTP-branch canonical string never equals an RPC-branch
canonical string (the HTTP branch contains five newlines, the RPC branch
four). -/
theorem canonicalString_cross_branch_ne (a b : SignatureInput)
    (ha : a.HTTPMethod ≠ "" ∧ a.HTTPPath ≠ "")
    (hb : ¬ (b.HTTPMethod ≠ "" ∧ b.HTTPPath ≠ ""))
    (ha1 : noNL a.Nonce) (ha2 : noNL a.HTTPMethod) (ha3 : noNL a.HTTPPath)
    (ha4 : noNL a.HTTPQuery) (ha5 : noNL a.BodySHA256) (ha6 : noNL a.CallbackURL)
    (hb1 : noNL b.Nonce) (hb2 : noNL b.GRPCFullMethod) (hb3 : noNL b.CallbackURL) :
    canonicalString a ≠ canonicalString b := by
  intro heq
  have hnl : nlCount "\n" = 1 := by decide
  have hres : nlCount (if a.HTTPQuery ≠ "" then a.HTTPPath ++ "?" ++ a.HTTPQuery
      else a.HTTPPath) = 0 := by
    split
    · rw [nlCount_app, nlCount_app, noNL_nlCount ha3, noNL_nlCount ha4,
        show nlCount "?" = 0 from by decide]
    · exact noNL_nlCount ha3
  have hca : nlCount (canonicalString a) = 5 := by
    unfold canonicalString
    rw [if_pos ha]
    rw [nlCount_app, nlCount_app, nlCount_app, nlCount_app, nlCount_app, nlCount_app,
      nlCount_app, nlCount_app, nlCount_app, nlCount_app]
    rw [noNL_nlCount (intDec_no_newline _), hnl, noNL_nlCount ha1, noNL_nlCount ha2,
      noNL_nlCount ha5, noNL_nlCount ha6, hres]
  have hcb : nlCount (canonicalString b) = 4 := by
    unfold canonicalString
    rw [if_neg hb]
    rw [nlCount_app, nlCount_app, nlCount_app, nlCount_app, nlCount_app, nlCount_app,
      nlCount_app, nlCount_app]
    rw [noNL_nlCount (intDec_no_newline _), hnl, noNL_nlCount hb1, noNL_nlCount hb2,
      noNL_nlCount hb3, show nlCount "GRPC" = 0 from by decide]
  rw [heq, hcb] at hca
  exact absurd hca (by decide)

/-- Witness for C3's amended theorem at newline-free concrete inputs. -/
theorem canonicalString_cross_branch_ne_witness :
    canonicalString
        { Timestamp := 1, Nonce := "n", HTTPMethod := "GRPC", HTTPPath := "/s",
          CallbackURL := "y" } ≠
      canonicalString
        { Timestamp := 1, Nonce := "n", GRPCFullMethod := "/s", CallbackURL := "y" } :=
  canonicalString_cross_branch_ne _ _ (by decide) (by decide) (by decide) (by decide)
    (by decide) (by decide) (by decide) (by decide) (by decide) (by decide) (by decide)

/-- C5 counterexample: with zero static tokens configured the interceptor
does pass every call through with empty identity and no method, but the
method gating of `SetUsageCallback`/`GetUsageCallback` is NOT bypassed:
both reject with `PermissionDenied` ("service token required"), refuting
the claim that they do not reject in disabled mode. -/
theorem disabled_mode_gating_not_bypassed :
    (NewManager [] (15 * minuteNs)).enabled = false ∧
    UnaryServerInterceptor (fun _ _ => []) (NewManager [] (15 * minuteNs)) (fun _ => [])
        "/llmgateway.v1.LLMGatewayService/SetUsageCallback" 0 backgroundCtx =
      .ok backgroundCtx ∧
    SubjectFromContext backgroundCtx = "" ∧ MethodFromContext backgroundCtx = "" ∧
    SetUsageCallback (some (NewManager [] (15 * minuteNs))) backgroundCtx
        ["https://example.com/cb"] =
      .error ⟨.PermissionDenied, "service token required"⟩ ∧
    GetUsageCallback (some (NewManager [] (15 * minuteNs))) backgroundCtx =
      .error ⟨.PermissionDenied, "service token required"⟩ :=
  ⟨rfl, rfl, rfl, rfl, rfl, rfl⟩

/-- C5 amended: with zero static tokens configured, auth is disabled and
every inbound call passes the interceptor with the context untouched (empty
identity, no method); however the handler-layer method gating of
`SetUsageCallback` and `GetUsageCallback` is not bypassed: in disabled mode
they reject every call with `PermissionDenied` because no method is bound. -/
theorem disabled_mode_short_circuit_and_gating (ttl now : Int)
    (hm : String → String → List Nat) (md : Md) (fullMethod : String) (ctx : Ctx)
    (urls : List String) :
    (NewManager [] ttl).enabled = false ∧
    UnaryServerInterceptor hm (NewManager [] ttl) md fullMethod now ctx = .ok ctx ∧
    SubjectFromContext backgroundCtx = "" ∧ MethodFromContext backgroundCtx = "" ∧
    SetUsageCallback (some (NewManager [] ttl)) backgroundCtx urls =
      .error ⟨.PermissionDenied, "service token required"⟩ ∧
    GetUsageCallback (some (NewManager [] ttl)) backgroundCtx =
      .error ⟨.PermissionDenied, "service token required"⟩ :=
  ⟨rfl, rfl, rfl, rfl, rfl, rfl⟩

/-- C6: with auth enabled, a call whose full method ends in
`/IssueTemporaryCredentials` and which carries no static-token metadata is
rejected by the interceptor with `Unauthenticated` ("service token
required"), for every remaining metadata content — in particular the
signature-verification path is never attempted, so a derived credential can
never mint another derived credential. -/
theorem issuance_requires_service_token (hm : String → String → List Nat) (mgr : Manager)
    (md : Md) (fullMethod : String) (now : Int) (ctx : Ctx)
    (hen : mgr.enabled = true)
    (hnotok : first (md mdServiceToken) = "")
    (hsuf : hasSuffixStr fullMethod "/IssueTemporaryCredentials" = true) :
    UnaryServerInterceptor hm mgr md fullMethod now ctx =
      .error ⟨.Unauthenticated, "service token required"⟩ := by
  unfold UnaryServerInterceptor
  rw [if_neg (by simp [hen])]
  unfold authenticate
  rw [hnotok]
  rw [if_neg (by simp)]
  rw [if_pos hsuf]

/-- Witness for C6 at a concrete enabled manager and signature-bearing
metadata. -/
theorem issuance_requires_service_token_witness :
    UnaryServerInterceptor (fun _ _ => []) (NewManager [{ Name := "svc", Token := "t" }] 1)
        (fun k => if k = mdAccessKeyID then ["ak"] else [])
        "/llmgateway.v1.LLMGatewayService/IssueTemporaryCredentials" 0 backgroundCtx =
      .error ⟨.Unauthenticated, "service token required"⟩ :=
  issuance_requires_service_token _ _ _ _ _ _ rfl rfl (by decide)

/-- C10: a timestamp metadata string that is empty or contains any
character other than digits (apart from a single leading minus sign) parses
to 0 via `parseInt64`; `"0"` itself also parses to 0; and with auth enabled
`AuthenticateSignature` rejects every input whose `Timestamp` is 0 — so a
malformed timestamp header, and equally the literal epoch timestamp 0, can
never authenticate by signature. -/
theorem malformed_timestamp_never_authenticates (s : String)
    (hbad : s.data = [] ∨ ∃ j c, s.data.get? j = some c ∧ badTimestampChar j c) :
    parseInt64 s = 0 ∧ parseInt64 "0" = 0 ∧
    ∀ (hm : String → String → List Nat) (m : Manager) (in_ : SignatureInput) (now : Int),
      m.enabled = true → in_.Timestamp = 0 →
        AuthenticateSignature hm m in_ now = ("", false) := by
  refine ⟨?_, by decide, ?_⟩
  · rcases hbad with hbad | hbad
    · unfold parseInt64
      rw [hbad]
      decide
    · unfold parseInt64
      apply parseInt64Loop_bad
      obtain ⟨j, c, hget, hb⟩ := hbad
      refine ⟨j, c, hget, ?_⟩
      rw [Nat.zero_add]
      exact hb
  · intro hm m in_ now hen hts
    unfold AuthenticateSignature
    rw [if_neg (by simp [hen])]
    rw [if_pos (Or.inr (Or.inr (Or.inl hts)))]

/-- Witness for C10: the malformed string `"10a"` parses to 0 and a
zero-timestamp input is rejected by a concrete enabled manager. -/
theorem malformed_timestamp_never_authenticates_witness :
    parseInt64 "10a" = 0 ∧
    AuthenticateSignature (fun _ _ => []) (NewManager [{ Name := "svc", Token := "t" }] 1)
        { AccessKeyID := "k", Signature := "ab", Timestamp := 0, Nonce := "n" } 0 =
      ("", false) :=
  ⟨(malformed_timestamp_never_authenticates "10a"
      (Or.inr ⟨2, 'a', by decide, by decide⟩)).1,
    (malformed_timestamp_never_authenticates "10a"
      (Or.inr ⟨2, 'a', by decide, by decide⟩)).2.2 _ _ _ 0 rfl rfl⟩

/-- C4: a derived credential issued at time `T` with TTL `D` has
`expiresAt = T + D`; against the post-issuance store, a signature over the
issued secret that is otherwise correct and timestamp-fresh verifies at
time `T'` exactly when `T' ≤ T + D` (hence at every `T ≤ T' ≤ T + D` and
at no `T' > T + D`); and the record stays present in the store map
regardless of `T'` — expired records are treated as absent by the expiry
check on lookup, not deleted. -/
theorem temporaryCredential_expiry_window (hm : String → String → List Nat) (m : Manager)
    (tok akid secret : String) (T D : Int) (creds : TemporaryCredentials) (m' : Manager)
    (in_ : SignatureInput) (T' : Int)
    (hen : m.enabled = true) (hTTL : m.tempTTL = D)
    (hiss : IssueTemporaryCredentials m tok akid secret T = .ok (creds, m'))
    (hak : in_.AccessKeyID = akid) (haknz : akid ≠ "")
    (hsig : in_.Signature = hmacSHA256Hex hm secret (canonicalString in_))
    (hmac1 : hm secret (canonicalString in_) ≠ [])
    (hmac2 : ∀ b ∈ hm secret (canonicalString in_), b < 256)
    (hts : in_.Timestamp ≠ 0) (hnonce : in_.Nonce ≠ "")
    (hw1 : T' - 5 * minuteNs ≤ timeUnix in_.Timestamp)
    (hw2 : timeUnix in_.Timestamp ≤ T' + 5 * minuteNs) :
    creds.ExpiresAt = T + D ∧
    alLookup akid m'.temps =
      some { secret := secret, expiresAt := T + D, subject := creds.Subject } ∧
    (AuthenticateSignature hm m' in_ T' = (creds.Subject, true) ↔ T' ≤ T + D) := by
  unfold IssueTemporaryCredentials at hiss
  rw [if_neg (by simp [hen])] at hiss
  rcases hauth : AuthenticateServiceToken m tok with ⟨subj, ok⟩
  rw [hauth] at hiss
  cases ok
  · cases hiss
  · injection hiss with hiss
    have hcreds :
        creds =
          { AccessKeyID := akid, AccessKeySecret := secret, ExpiresAt := T + m.tempTTL, Subject := subj } :=
      (congrArg Prod.fst hiss).symm
    have hm2 :
        m' =
          { m with temps := (alSet akid { secret := secret, expiresAt := T + m.tempTTL, subject := subj } m.temps) } :=
      (congrArg Prod.snd hiss).symm
    subst hcreds
    subst hm2
    have hen' :
        ({ m with temps := (alSet akid { secret := secret, expiresAt := T + m.tempTTL, subject := subj } m.temps) } : Manager).enabled = true :=
      hen
    refine ⟨?_, ?_, ?_⟩
    · show T + m.tempTTL = T + D
      rw [hTTL]
    · show alLookup akid (alSet akid
          { secret := secret, expiresAt := T + m.tempTTL, subject := subj } m.temps) =
        some { secret := secret, expiresAt := T + D, subject := subj }
      rw [← hTTL]
      exact alLookup_alSet_self akid _ m.temps
    · constructor
      · intro hs
        obtain ⟨-, -, -, -, -, -, record, hrec, hnexp, -, -⟩ :=
          (authSig_enabled_iff hm _ in_ T' hen' _).mp hs
        rw [hak] at hrec
        have hrec2 : alLookup akid (alSet akid
            { secret := secret, expiresAt := T + m.tempTTL, subject := subj } m.temps) =
            some record := hrec
        rw [alLookup_alSet_self] at hrec2
        injection hrec2 with hrec2
        rw [← hrec2] at hnexp
        have hnexp2 : ¬ T' > T + m.tempTTL := hnexp
        omega
      · intro hle
        apply (authSig_enabled_iff hm _ in_ T' hen' _).mpr
        refine ⟨by rw [hak]; exact haknz, ?_, hnonce, hts, hw1, hw2,
          { secret := secret, expiresAt := T + m.tempTTL, subject := subj }, ?_, ?_, ?_, ?_⟩
        · rw [hsig]
          unfold hmacSHA256Hex
          exact hexEncode_ne_empty hmac1
        · rw [hak]
          exact alLookup_alSet_self akid _ m.temps
        · show ¬ T' > T + m.tempTTL
          omega
        · rw [hsig]
          unfold hmacSHA256Hex hexDecode hexEncode
          exact hexDecodeL_hexEncodeL hmac2
        · rfl

/-- Witness for C4: a concrete issuance followed by a successful
verification before expiry. -/
theorem temporaryCredential_expiry_window_witness :
    AuthenticateSignature (fun _ _ => [171])
        { enabled := true, serviceTokens := [("tok", { Name := "svc", Token := "tok" })],
          tempTTL := 900 * nsPerSec,
          temps := [("ak1", { secret := "sec1", expiresAt := 0 + 900 * nsPerSec, subject := "svc" })],
          usageCallbackAllowlist := [] }
        { AccessKeyID := "ak1", Signature := "ab", Timestamp := 1, Nonce := "n" } 0 =
      ("svc", true) :=
  (temporaryCredential_expiry_window (fun _ _ => [171])
      (NewManager [{ Name := "svc", Token := "tok" }] (900 * nsPerSec)) "tok" "ak1" "sec1"
      0 (900 * nsPerSec)
      { AccessKeyID := "ak1", AccessKeySecret := "sec1", ExpiresAt := 0 + 900 * nsPerSec,
        Subject := "svc" }
      { enabled := true, serviceTokens := [("tok", { Name := "svc", Token := "tok" })],
        tempTTL := 900 * nsPerSec,
        temps := [("ak1", { secret := "sec1", expiresAt := 0 + 900 * nsPerSec, subject := "svc" })],
        usageCallbackAllowlist := [] }
      { AccessKeyID := "ak1", Signature := "ab", Timestamp := 1, Nonce := "n" } 0
      rfl (by decide) rfl rfl (by decide) rfl (by decide) (by decide) (by decide) (by decide)
      (by decide) (by decide)).2.2.mpr (by decide)

/-- C7: the four forwarded `x-llmgw-*` values reaching the Auth Engine
depend only on the request's actual method, URL path, query string and
body: two requests differing only in externally supplied values for those
four (case-insensitive) header keys produce identical forwarded values,
because the bridge unconditionally overwrites them before dispatch. -/
theorem bridge_overwrites_forwarded_headers (sha256 : List Nat → List Nat)
    (r1 r2 : HTTPRequest)
    (hM : r1.Method = r2.Method) (hP : r1.URLPath = r2.URLPath)
    (hQ : r1.URLRawQuery = r2.URLRawQuery) (hB : r1.Body = r2.Body)
    (hH : ∀ k : String,
      lowerStr k ∉ [mdHTTPMethod, mdHTTPPath, mdHTTPQuery, mdBodySHA256] →
      hGet k r1.Header = hGet k r2.Header) :
    forwardedAuthMetadata sha256 r1 = forwardedAuthMetadata sha256 r2 := by
  rw [forwardedAuthMetadata_eval, forwardedAuthMetadata_eval]
  rw [hM, hP, hQ, hB]
  rw [hH "X-Access-Key-Id" (by decide), hH "X-Signature" (by decide),
    hH "X-Timestamp" (by decide), hH "X-Nonce" (by decide)]

/-- Witness for C7: two requests differing only in an externally supplied
`X-Llmgw-Http-Path` header value forward identical metadata. -/
theorem bridge_overwrites_forwarded_headers_witness :
    forwardedAuthMetadata (fun _ => [0])
        { Method := "POST", URLPath := "/v1/x", URLRawQuery := "",
          Header := [("X-Llmgw-Http-Path", "/evil1")], Body := [] } =
      forwardedAuthMetadata (fun _ => [0])
        { Method := "POST", URLPath := "/v1/x", URLRawQuery := "",
          Header := [("X-Llmgw-Http-Path", "/evil2")], Body := [] } :=
  bridge_overwrites_forwarded_headers _ _ _ rfl rfl rfl rfl (by
    intro k hk
    have hne : ¬ (lowerStr "X-Llmgw-Http-Path" = lowerStr k) := fun h =>
      hk (by rw [← h]; decide)
    show (if lowerStr "X-Llmgw-Http-Path" = lowerStr k then "/evil1" else "") =
      (if lowerStr "X-Llmgw-Http-Path" = lowerStr k then "/evil2" else "")
    rw [if_neg hne, if_neg hne])

/-- C8 counterexample: by the claim's own definition of malformed (scheme
not http/https — which holds for the empty string), the list `[""]` is
malformed, yet `SetUsageCallbackAllowlist` does not reject it: the empty
string is skipped before validation, the call succeeds, and the subject's
previously registered set is removed — the state is changed, refuting both
halves of the claim. -/
theorem setAllowlist_empty_string_bypasses_validation :
    validateCallbackURL "" ≠ none ∧
    SetUsageCallbackAllowlist
        { enabled := true, serviceTokens := [("t", { Name := "svc", Token := "t" })],
          tempTTL := 1, temps := [],
          usageCallbackAllowlist := [("svc", ["https://a.example/"])] } "svc" [""] =
      ({ enabled := true, serviceTokens := [("t", { Name := "svc", Token := "t" })],
         tempTTL := 1, temps := [], usageCallbackAllowlist := [] }, none) :=
  ⟨by decide, rfl⟩

/-- C8 amended: for every subject and URL list containing at least one
malformed NON-EMPTY URL (the validator rejects it), the call fails with a
forbidden error — surfaced as `InvalidArgument` by the handler — and the
manager state is returned completely unchanged: nothing is inserted and
the subject's previous set is preserved.  (Empty strings are skipped
without validation.) -/
theorem setAllowlist_rejects_malformed (m : Manager) (subject : String) (urls : List String)
    (hen : m.enabled = true) (hsub : subject ≠ "")
    (hbad : ∃ u ∈ urls, u ≠ "" ∧ validateCallbackURL u ≠ none) :
    (SetUsageCallbackAllowlist m subject urls).1 = m ∧
    ∃ msg, (SetUsageCallbackAllowlist m subject urls).2 = some (AuthErr.forbidden msg) := by
  unfold SetUsageCallbackAllowlist
  rw [if_neg (by simp [hen]), if_neg hsub]
  obtain ⟨msg, hmsg⟩ := collectCallbackURLs_err urls [] hbad
  rcases hc : collectCallbackURLs urls [] with ⟨set, err⟩
  rw [hc] at hmsg
  have hmsg2 : err = some (AuthErr.forbidden msg) := hmsg
  subst hmsg2
  exact ⟨rfl, msg, rfl⟩

/-- Witness for C8's amended theorem: a list holding one valid and one
`ftp` URL is rejected and the previous allowlist state survives. -/
theorem setAllowlist_rejects_malformed_witness :
    (SetUsageCallbackAllowlist
        { enabled := true, serviceTokens := [], tempTTL := 1, temps := [],
          usageCallbackAllowlist := [("svc", ["https://a.example/"])] } "svc"
        ["https://ok.example/cb", "ftp://x"]).1 =
      { enabled := true, serviceTokens := [], tempTTL := 1, temps := [],
        usageCallbackAllowlist := [("svc", ["https://a.example/"])] } ∧
    ∃ msg, (SetUsageCallbackAllowlist
        { enabled := true, serviceTokens := [], tempTTL := 1, temps := [],
          usageCallbackAllowlist := [("svc", ["https://a.example/"])] } "svc"
        ["https://ok.example/cb", "ftp://x"]).2 = some (AuthErr.forbidden msg) :=
  setAllowlist_rejects_malformed _ "svc" _ rfl (by decide)
    ⟨"ftp://x", by decide, by decide, by decide⟩

/-- Evaluation of a successful `SetUsageCallbackAllowlist` call. -/
theorem setAllowlist_eval (m : Manager) (subject : String) (urls : List String)
    (hen : m.enabled = true) (hsub : subject ≠ "") (set : List String)
    (hc : collectCallbackURLs urls [] = (set, none)) :
    SetUsageCallbackAllowlist m subject urls =
      if set = [] then
        ({ m with usageCallbackAllowlist := alErase subject m.usageCallbackAllowlist }, none)
      else
        ({ m with usageCallbackAllowlist := alSet subject set m.usageCallbackAllowlist },
          none) := by
  unfold SetUsageCallbackAllowlist
  rw [if_neg (by simp [hen]), if_neg hsub, hc]

/-- Evaluation of `UsageCallbackAllowlist` on an absent subject. -/
theorem usageCallbackAllowlist_eval_none (m2 : Manager) (subject : String)
    (hen : m2.enabled = true) (hsub : subject ≠ "")
    (hl : alLookup subject m2.usageCallbackAllowlist = none) :
    UsageCallbackAllowlist m2 subject = [] := by
  unfold UsageCallbackAllowlist
  rw [if_neg (by simp [hen]), if_neg hsub, hl]

/-- Evaluation of `UsageCallbackAllowlist` on a present, non-empty set. -/
theorem usageCallbackAllowlist_eval_some (m2 : Manager) (subject : String) (set : List String)
    (hen : m2.enabled = true) (hsub : subject ≠ "")
    (hl : alLookup subject m2.usageCallbackAllowlist = some set) (hne : set ≠ []) :
    UsageCallbackAllowlist m2 subject = sortStrings set := by
  unfold UsageCallbackAllowlist
  rw [if_neg (by simp [hen]), if_neg hsub, hl]
  show (if set = [] then [] else sortStrings set) = sortStrings set
  rw [if_neg hne]

/-- C9: setting the allowlist to a list of valid URLs succeeds, and reading
it back returns exactly the deduplicated set of those URLs in sorted order
(a sorted, duplicate-free list whose members are exactly the listed URLs);
setting it to the empty list removes the subject's entry entirely: the map
holds no entry for the subject and a subsequent read returns the empty
list. -/
theorem allowlist_set_get_roundtrip (m : Manager) (subject : String) (urls : List String)
    (hen : m.enabled = true) (hsub : subject ≠ "")
    (hvalid : ∀ u ∈ urls, validateCallbackURL u = none) :
    (SetUsageCallbackAllowlist m subject urls).2 = none ∧
    (urls = [] →
      alLookup subject (SetUsageCallbackAllowlist m subject urls).1.usageCallbackAllowlist =
        none ∧
      UsageCallbackAllowlist (SetUsageCallbackAllowlist m subject urls).1 subject = []) ∧
    (urls ≠ [] →
      (UsageCallbackAllowlist (SetUsageCallbackAllowlist m subject urls).1 subject).Sorted
        strLe ∧
      (UsageCallbackAllowlist (SetUsageCallbackAllowlist m subject urls).1 subject).Nodup ∧
      (∀ u, u ∈ UsageCallbackAllowlist (SetUsageCallbackAllowlist m subject urls).1 subject ↔
        u ∈ urls)) := by
  obtain ⟨set, hset, hmem, hnd⟩ := collectCallbackURLs_ok urls [] hvalid
  have hmem' : ∀ u, u ∈ set ↔ u ∈ urls := by
    intro u
    rw [hmem u]
    simp
  have hndset : set.Nodup := hnd List.nodup_nil
  rw [setAllowlist_eval m subject urls hen hsub set hset]
  by_cases hurls : urls = []
  · subst hurls
    have hsetnil : set = [] := by
      have h2 : (([] : List String), (none : Option AuthErr)) = (set, none) := hset
      injection h2 with h1 _
      exact h1.symm
    subst hsetnil
    rw [if_pos rfl]
    dsimp only
    refine ⟨rfl, fun _ => ⟨alLookup_alErase_self subject m.usageCallbackAllowlist, ?_⟩,
      fun h => absurd rfl h⟩
    exact usageCallbackAllowlist_eval_none
      { m with usageCallbackAllowlist := alErase subject m.usageCallbackAllowlist }
      subject hen hsub (alLookup_alErase_self subject m.usageCallbackAllowlist)
  · have hsetne : set ≠ [] := by
      rcases urls with _ | ⟨u0, rest⟩
      · exact absurd rfl hurls
      · intro hnil
        have : u0 ∈ set := (hmem' u0).mpr (List.mem_cons_self _ _)
        rw [hnil] at this
        simp at this
    rw [if_neg hsetne]
    dsimp only
    refine ⟨rfl, fun h => absurd h hurls, fun _ => ?_⟩
    rw [usageCallbackAllowlist_eval_some
      { m with usageCallbackAllowlist := alSet subject set m.usageCallbackAllowlist }
      subject set hen hsub (alLookup_alSet_self subject set m.usageCallbackAllowlist) hsetne]
    exact ⟨sortStrings_sorted set, sortStrings_nodup hndset,
      fun u => (mem_sortStrings).trans (hmem' u)⟩

/-- Witness for C9: a concrete set-then-get returning the sorted
deduplicated list, applied through the roundtrip theorem. -/
theorem allowlist_set_get_roundtrip_witness :
    (SetUsageCallbackAllowlist
        { enabled := true, serviceTokens := [], tempTTL := 1, temps := [],
          usageCallbackAllowlist := [] } "svc"
        ["https://b.example/x", "https://a.example/", "https://b.example/x"]).2 = none ∧
    ("https://a.example/" ∈ UsageCallbackAllowlist
        (SetUsageCallbackAllowlist
          { enabled := true, serviceTokens := [], tempTTL := 1, temps := [],
            usageCallbackAllowlist := [] } "svc"
          ["https://b.example/x", "https://a.example/", "https://b.example/x"]).1 "svc" ↔
      "https://a.example/" ∈
        ["https://b.example/x", "https://a.example/", "https://b.example/x"]) ∧
    (UsageCallbackAllowlist
        (SetUsageCallbackAllowlist
          { enabled := true, serviceTokens := [], tempTTL := 1, temps := [],
            usageCallbackAllowlist := [] } "svc"
          ["https://b.example/x", "https://a.example/", "https://b.example/x"]).1
        "svc").Sorted strLe :=
  ⟨(allowlist_set_get_roundtrip _ "svc" _ rfl (by decide) (by decide)).1,
    ((allowlist_set_get_roundtrip _ "svc" _ rfl (by decide) (by decide)).2.2
      (by decide)).2.2 _,
    ((allowlist_set_get_roundtrip _ "svc" _ rfl (by decide) (by decide)).2.2
      (by decide)).1⟩

end LLMGateway
